import Mathlib

/-!
Shallow embedding of the cocaine-framework-python client core
(src/cocaine/detail/baseservice.py, class BaseService) and proofs about it.

The embedding models the post-codec level of the program: inbound data is a
list of already-decoded frames (the msgpack codec is an external collaborator
per the specification), a frame is its list of decoded fields, and the
transport handle is opaque.  The receive side of a session (class Rx of
channel.py, which is not part of the sources) is kept abstract: the code uses
only its push/closed/error interface, so the definitions are parametric in a
receive-side type R together with its interface RxI, and concrete theorems
instantiate R with the executable model RxM.

Correspondence with the source:
  Val / frames        -- decoded msgpack values and frames (fields lists)
  ServiceState        -- the mutable attributes set in BaseService.__init__
  connectModel        -- BaseService.connect (the endpoint race, with the
                         completion order of the attempts as an explicit input)
  disconnectModel     -- BaseService.disconnect
  routeFrame / onRead -- the frame loop of BaseService.on_read
  findMethod          -- the api lookup loop of BaseService._invoke
  invokeModel         -- BaseService._invoke (atomic run)
  runOp / run         -- sequential composition of whole operations
  mstep / msteps      -- small-step machine exposing the suspension point of
                         _invoke at the yield of pipe.write, so interleavings
                         of a dispatch with disconnect/on_read are expressible
Each operation additionally returns the list of observable events (bytes
written, sessions registered, deliveries, disconnection errors, ...) it
performs, in program order.
-/

namespace Cocaine

/-- Decoded msgpack values (only the shapes the claims need; payloads and
protocol trees are opaque values). -/
inductive Val where
  | vint (i : Int)
  | vstr (s : String)
  | vunit
deriving DecidableEq

/-- A candidate endpoint, as a (host, port) pair. -/
abbrev Endpoint := String × Nat

/-- The interface the core requires of a session's receive side (class Rx):
push a (message_type, payload) pair, and ask whether the session is closed.
Delivery of disconnection errors is recorded in the event trace. -/
structure RxI (R : Type) where
  push : R → Val → Val → R
  closed : R → Bool

/-- Observable events of the operations, in program order. -/
inductive Ev where
  | connectAttempt (ep : Endpoint)
  | pipeClose
  | write (sid : Nat) (mid : Nat) (args : List Val)
  | register (sid : Nat)
  | expose (sid : Nat)
  | deliver (sid : Nat) (mtype : Val) (payload : Val)
  | skipMalformed
  | skipUnknown
  | remove (sid : Nat)
  | errorOut (sid : Nat) (service : String)
deriving DecidableEq

/-- The mutable state of a BaseService instance (the attributes assigned in
`__init__`): `sessions` is the session table as an insertion-ordered
association list, `counter` the next value of `itertools.count(1)`, `api`
the method table keyed by method id exactly as in the source, `pipe` the
live transport handle. -/
structure ServiceState (R : Type) where
  name : String
  endpoints : List Endpoint
  sessions : List (Nat × R)
  counter : Nat
  api : List (Nat × String × Val × Val)
  pipe : Option Unit
  address : Option Endpoint
deriving DecidableEq

/-- Dictionary assignment `d[k] = v`: overwrite the entry of `k` in place if
present, otherwise append a new entry (python dict insertion order). -/
def dictInsert {α β : Type} [DecidableEq α] (k : α) (v : β) : List (α × β) → List (α × β)
  | [] => [(k, v)]
  | (k', v') :: rest => if k' = k then (k, v) :: rest else (k', v') :: dictInsert k v rest

/-- Dictionary lookup `d.get(k)`. -/
def lookupK {α β : Type} [DecidableEq α] : List (α × β) → α → Option β
  | [], _ => none
  | (k, v) :: rest, a => if k = a then some v else lookupK rest a

/-- Replace the value stored under a key, keeping its position (the in-place
mutation of the stored Rx object by `rx.push`). -/
def updateVal {α β : Type} [DecidableEq α] : List (α × β) → α → β → List (α × β)
  | [], _, _ => []
  | (k, w) :: rest, a, v => if k = a then (a, v) :: rest else (k, w) :: updateVal rest a v

/-- Dictionary deletion `del d[k]`. -/
def eraseKey {α β : Type} [DecidableEq α] (a : α) : List (α × β) → List (α × β)
  | [] => []
  | (k, v) :: rest => if k = a then rest else (k, v) :: eraseKey a rest

/-- `self.sessions.get(session)` where the session field of a frame is an
arbitrary decoded value: only a non-negative integer can match a table key. -/
def lookupS {R : Type} (tbl : List (Nat × R)) (v : Val) : Option (Nat × R) :=
  match v with
  | Val.vint i =>
    if i < 0 then none
    else
      match lookupK tbl i.toNat with
      | some r => some (i.toNat, r)
      | none => none
  | _ => none

/-- One iteration of the frame loop in `on_read`: unpack the first three
fields (fewer than three is the malformed case), look the session up, push
to it, and delete it from the table if it reports itself closed. -/
def routeFrame {R : Type} (I : RxI R) (st : ServiceState R) (f : List Val) :
    ServiceState R × List Ev :=
  match f with
  | a :: mt :: p :: _ =>
    match lookupS st.sessions a with
    | none => (st, [Ev.skipUnknown])
    | some (sid, r) =>
      let r' := I.push r mt p
      if I.closed r' = true then
        ({ st with sessions := eraseKey sid (updateVal st.sessions sid r') },
         [Ev.deliver sid mt p, Ev.remove sid])
      else
        ({ st with sessions := updateVal st.sessions sid r' }, [Ev.deliver sid mt p])
  | _ => (st, [Ev.skipMalformed])

/-- `on_read`, at the level of the already-decoded frames drained from the
incremental unpacker for one inbound chunk (the codec is external). -/
def onRead {R : Type} (I : RxI R) (st : ServiceState R) : List (List Val) → ServiceState R × List Ev
  | [] => (st, [])
  | f :: rest =>
    let p1 := routeFrame I st f
    let p2 := onRead I p1.1 rest
    (p2.1, p1.2 ++ p2.2)

/-- `disconnect`: no-op when no pipe is live; otherwise close the pipe, null
the reference, and drain the session table (dict.popitem pops the most
recently inserted entry first), delivering a DisconnectionError carrying the
service name to each drained session. -/
def disconnectModel {R : Type} (st : ServiceState R) : ServiceState R × List Ev :=
  match st.pipe with
  | none => (st, [])
  | some _ =>
    ({ st with pipe := none, sessions := [] },
     Ev.pipeClose :: st.sessions.reverse.map (fun q => Ev.errorOut q.1 st.name))

/-- The race loop of `connect`, processing attempt results in completion
order: the first success wins; a failure records its (endpoint, error) pair
into the `errors` dict (overwriting a previous entry for the same endpoint). -/
def raceLoop : List (Endpoint × Except String Unit) → List (Endpoint × String) →
    (List (Endpoint × String)) ⊕ Endpoint
  | [], errs => Sum.inl errs
  | (ep, Except.ok _) :: _, _ => Sum.inr ep
  | (ep, Except.error e) :: rest, errs => raceLoop rest (dictInsert ep e errs)

/-- `connect`: immediate return when a pipe is live; otherwise launch one
attempt per endpoint (the connectAttempt events) and run the race over the
attempt results, given in completion order.  On a win the pipe and address
are set; if every attempt fails, the aggregated (endpoint, error) dict is
the failure of the call and the state is untouched. -/
def connectModel {R : Type} (st : ServiceState R)
    (completions : List (Endpoint × Except String Unit)) :
    ServiceState R × List Ev × Except (List (Endpoint × String)) Unit :=
  match st.pipe with
  | some _ => (st, [], Except.ok ())
  | none =>
    let evs := st.endpoints.map Ev.connectAttempt
    match raceLoop completions [] with
    | Sum.inr ep => ({ st with pipe := some (), address := some ep }, evs, Except.ok ())
    | Sum.inl errs => (st, evs, Except.error errs)

/-- The error aggregation of the race loop in isolation: fold the failed
(endpoint, cause) pairs, in completion order, into the errors dict. -/
def aggErrors : List (Endpoint × String) → List (Endpoint × String) → List (Endpoint × String)
  | [], errs => errs
  | (ep, e) :: rest, errs => aggErrors rest (dictInsert ep e errs)

/-- View a list of failed (endpoint, cause) pairs as race completions. -/
def asFailures (l : List (Endpoint × String)) : List (Endpoint × Except String Unit) :=
  l.map (fun q => (q.1, Except.error q.2))

/-- The api scan of `_invoke`: first entry whose method name matches. -/
def findMethod : List (Nat × String × Val × Val) → String → Option (Nat × Val × Val)
  | [], _ => none
  | (mid, m, txT, rxT) :: rest, mname =>
    if m = mname then some (mid, txT, rxT) else findMethod rest mname

/-- The send side handed back by `_invoke` (class Tx), identified by the
session id it is bound to. -/
structure TxM where
  sid : Nat
deriving DecidableEq

/-- The bidirectional handle returned by `_invoke` (class Channel). -/
structure Chan (R : Type) where
  rx : R
  tx : TxM
deriving DecidableEq

/-- The failures of `_invoke`: a propagated connection failure, or the
AttributeError naming the missing method. -/
inductive InvokeErr where
  | connErr (errs : List (Endpoint × String))
  | attributeErr (mname : String)
deriving DecidableEq

/-- `_invoke`, run atomically: connect, scan the api, and on a match
allocate the next session id, write the invocation frame, build the rx/tx
pair, register the rx, and return the channel.  The event list records the
program order: the write strictly precedes the registration, which strictly
precedes the exposure of the channel. -/
def invokeModel {R : Type} (mkRx : Val → R) (st : ServiceState R)
    (completions : List (Endpoint × Except String Unit)) (mname : String) (args : List Val) :
    ServiceState R × List Ev × Except InvokeErr (Chan R) :=
  match connectModel st completions with
  | (st1, evs1, Except.error e) => (st1, evs1, Except.error (InvokeErr.connErr e))
  | (st1, evs1, Except.ok _) =>
    match findMethod st1.api mname with
    | none => (st1, evs1, Except.error (InvokeErr.attributeErr mname))
    | some (mid, _txT, rxT) =>
      let sid := st1.counter
      let rx := mkRx rxT
      ({ st1 with counter := sid + 1, sessions := dictInsert sid rx st1.sessions },
       evs1 ++ [Ev.write sid mid args, Ev.register sid, Ev.expose sid],
       Except.ok (Chan.mk rx (TxM.mk sid)))

/-- The state built by `BaseService.__init__`. -/
def initSt (R : Type) (name : String) (endpoints : List Endpoint)
    (api : List (Nat × String × Val × Val)) : ServiceState R :=
  { name := name, endpoints := endpoints, sessions := [], counter := 1,
    api := api, pipe := none, address := none }

/-- The whole operations of the service, each run to completion. -/
inductive Op where
  | connectOp (completions : List (Endpoint × Except String Unit))
  | invokeOp (completions : List (Endpoint × Except String Unit)) (mname : String) (args : List Val)
  | disconnectOp
  | onCloseOp
  | onReadOp (frames : List (List Val))

/-- Run one whole operation (`on_close` just calls `disconnect`). -/
def runOp {R : Type} (I : RxI R) (mkRx : Val → R) (st : ServiceState R) : Op → ServiceState R × List Ev
  | Op.connectOp c => ((connectModel st c).1, (connectModel st c).2.1)
  | Op.invokeOp c m a => ((invokeModel mkRx st c m a).1, (invokeModel mkRx st c m a).2.1)
  | Op.disconnectOp => disconnectModel st
  | Op.onCloseOp => disconnectModel st
  | Op.onReadOp frames => onRead I st frames

/-- Run a sequence of whole operations, concatenating their events. -/
def run {R : Type} (I : RxI R) (mkRx : Val → R) (st : ServiceState R) : List Op → ServiceState R × List Ev
  | [] => (st, [])
  | op :: ops =>
    let p1 := runOp I mkRx st op
    let p2 := run I mkRx p1.1 ops
    (p2.1, p1.2 ++ p2.2)

/-! ### Executable receive-side model

A concrete receive side used to instantiate the parametric theorems: it
records the pushed pairs and reports itself closed once it has received
`closeAfter` of them (sessions close when their protocol tree is done). -/

/-- Executable receive-side model. -/
structure RxM where
  pushed : List (Val × Val)
  closeAfter : Option Nat
deriving DecidableEq

/-- The push/closed interface of `RxM`. -/
def rxiM : RxI RxM :=
  { push := fun r mt p => { r with pushed := r.pushed ++ [(mt, p)] },
    closed := fun r =>
      match r.closeAfter with
      | some k => decide (k ≤ r.pushed.length)
      | none => false }

/-- Build a never-closing `RxM` from a protocol tree. -/
def mkRxM : Val → RxM := fun _ => { pushed := [], closeAfter := none }

/-- Build an `RxM` that closes after `k` pushes. -/
def mkRxMClose (k : Nat) : Val → RxM := fun _ => { pushed := [], closeAfter := some k }

/-! ### Small-step machine

`_invoke` suspends at `yield self.pipe.write(...)`: after the write has
completed on the wire, but before the coroutine resumes to build and
register the rx, the single-threaded scheduler may run other callbacks
(`on_read`, `on_close`, an explicit `disconnect`).  The machine makes that
suspension point explicit: `Act.start` runs a dispatch of a known method on
a connected service up to and including the write, `Act.resume` runs the
rest of it (which registers the session unconditionally, as the source
does). -/

/-- Machine state: the service state plus an optional dispatch suspended at
its frame write, holding the already-allocated session id and the rx tree. -/
structure MState (R : Type) where
  base : ServiceState R
  pending : Option (Nat × Val)
deriving DecidableEq

/-- The interleavable actions. -/
inductive Act where
  | start (mname : String) (args : List Val)
  | resume
  | disc
  | read (frames : List (List Val))

/-- One small step.  `start` requires no dispatch pending, a live pipe and a
known method: it allocates the session id and completes the write, leaving
the dispatch suspended.  `resume` builds the rx and registers it. -/
def mstep {R : Type} (I : RxI R) (mkRx : Val → R) (ms : MState R) : Act → Option (MState R)
  | Act.start mname _args =>
    match ms.pending, ms.base.pipe, findMethod ms.base.api mname with
    | none, some _, some (_mid, _txT, rxT) =>
      some { base := { ms.base with counter := ms.base.counter + 1 },
             pending := some (ms.base.counter, rxT) }
    | _, _, _ => none
  | Act.resume =>
    match ms.pending with
    | some (sid, rxT) =>
      some { base := { ms.base with sessions := dictInsert sid (mkRx rxT) ms.base.sessions },
             pending := none }
    | none => none
  | Act.disc => some { base := (disconnectModel ms.base).1, pending := ms.pending }
  | Act.read frames => some { base := (onRead I ms.base frames).1, pending := ms.pending }

/-- Iterate `mstep`. -/
def msteps {R : Type} (I : RxI R) (mkRx : Val → R) : MState R → List Act → Option (MState R)
  | ms, [] => some ms
  | ms, a :: rest =>
    match mstep I mkRx ms a with
    | some ms' => msteps I mkRx ms' rest
    | none => none

/-! ### Shared concrete fixtures -/

/-- The api of the C9 scenario: method id 1 is named echo. -/
def apiEcho : List (Nat × String × Val × Val) :=
  [(1, ("echo", Val.vstr "shapeA", Val.vstr "shapeB"))]

/-- A connected service exposing `apiEcho`, next session id 1, no open
sessions. -/
def stEcho : ServiceState RxM :=
  { name := "svc", endpoints := [("h", 1)], sessions := [], counter := 1,
    api := apiEcho, pipe := some (), address := some ("h", 1) }

/-- Recognize a frame-write event. -/
def isWriteEv : Ev → Bool
  | Ev.write _ _ _ => true
  | _ => false

/-- Recognize a session-registration event. -/
def isRegisterEv : Ev → Bool
  | Ev.register _ => true
  | _ => false

/-- The ordering property asserted by the specification for a dispatch
trace: the (first) registration does not come after the (first) write. -/
def registerNotAfterWrite (evs : List Ev) : Bool :=
  match evs.findIdx? isRegisterEv, evs.findIdx? isWriteEv with
  | some i, some j => decide (i ≤ j)
  | _, _ => true

/-- The connection-liveness invariant of the specification: the session
table is non-empty only while the live-connection reference is non-null. -/
def connInv {R : Type} (st : ServiceState R) : Prop :=
  st.sessions ≠ [] → st.pipe.isSome = true

/-- The session ids that received a disconnection error carrying the given
service name, in delivery order. -/
def errorOutsFor (svc : String) : List Ev → List Nat
  | [] => []
  | Ev.errorOut sid s :: rest =>
    if s = svc then sid :: errorOutsFor svc rest else errorOutsFor svc rest
  | _ :: rest => errorOutsFor svc rest

/-- The session ids allocated by dispatches, in allocation order (each
successful dispatch registers exactly the id it allocated). -/
def allocIds : List Ev → List Nat
  | [] => []
  | Ev.register sid :: rest => sid :: allocIds rest
  | _ :: rest => allocIds rest

/-- The consecutive ids c, c+1, ..., c+k-1. -/
def consecFrom : Nat → Nat → List Nat
  | _, 0 => []
  | c, k + 1 => c :: consecFrom (c + 1) k

/-- The (session, message_type, payload) triples delivered to receive
sides, in delivery order. -/
def deliveredTriples : List Ev → List (Val × Val × Val)
  | [] => []
  | Ev.deliver sid mt p :: rest => (Val.vint sid, mt, p) :: deliveredTriples rest
  | _ :: rest => deliveredTriples rest

/-- The first three fields of a frame, when it has at least three. -/
def frameTriple : List Val → Option (Val × Val × Val)
  | a :: b :: c :: _ => some (a, b, c)
  | _ => none

/-- Whether an `Except` is a failure. -/
def isErr {ε α : Type} : Except ε α → Bool
  | Except.error _ => true
  | Except.ok _ => false

/-! ### Helper lemmas -/

theorem mem_dictInsert_self {α β : Type} [DecidableEq α] (k : α) (v : β) (l : List (α × β)) :
    (k, v) ∈ dictInsert k v l := by
  induction l with
  | nil => simp [dictInsert]
  | cons hd t ih =>
    rcases hd with ⟨k', v'⟩
    by_cases hk : k' = k <;> simp [dictInsert, hk, ih]

theorem mem_dictInsert_elim {α β : Type} [DecidableEq α] {k : α} {v : β} {l : List (α × β)}
    {q : α × β} (hq : q ∈ dictInsert k v l) : q = (k, v) ∨ q ∈ l := by
  induction l with
  | nil => simpa [dictInsert] using hq
  | cons hd t ih =>
    rcases hd with ⟨k', v'⟩
    by_cases hk : k' = k
    · simp only [dictInsert, if_pos hk, List.mem_cons] at hq
      rcases hq with hq | hq
      · exact Or.inl hq
      · exact Or.inr (List.mem_cons_of_mem _ hq)
    · simp only [dictInsert, if_neg hk, List.mem_cons] at hq
      rcases hq with hq | hq
      · exact Or.inr (by simp [hq])
      · rcases ih hq with h1 | h1
        · exact Or.inl h1
        · exact Or.inr (List.mem_cons_of_mem _ h1)

theorem mem_dictInsert_of_ne {α β : Type} [DecidableEq α] {k a : α} {v b : β}
    {l : List (α × β)} (hmem : (a, b) ∈ l) (hne : a ≠ k) : (a, b) ∈ dictInsert k v l := by
  induction l with
  | nil => simp at hmem
  | cons hd t ih =>
    rcases hd with ⟨k', v'⟩
    rcases List.mem_cons.mp hmem with hq | hq
    · have ha : a = k' := congrArg Prod.fst hq
      have hk : ¬ k' = k := fun h => hne (ha.trans h)
      simp only [dictInsert, if_neg hk]
      exact List.mem_cons.mpr (Or.inl hq)
    · by_cases hk : k' = k
      · simp only [dictInsert, if_pos hk]
        exact List.mem_cons_of_mem _ hq
      · simp only [dictInsert, if_neg hk]
        exact List.mem_cons_of_mem _ (ih hq)

theorem aggErrors_keep {l : List (Endpoint × String)} {errs : List (Endpoint × String)}
    {k : Endpoint} {c : String} (hmem : (k, c) ∈ errs) (hout : k ∉ l.map Prod.fst) :
    (k, c) ∈ aggErrors l errs := by
  induction l generalizing errs with
  | nil => simpa [aggErrors] using hmem
  | cons hd t ih =>
    rcases hd with ⟨ep, e⟩
    simp only [List.map_cons, List.mem_cons, not_or] at hout
    exact ih (mem_dictInsert_of_ne hmem hout.1) hout.2

theorem aggErrors_cover {l : List (Endpoint × String)} {errs : List (Endpoint × String)}
    {k : Endpoint} (hmem : k ∈ l.map Prod.fst) :
    ∃ c, (k, c) ∈ aggErrors l errs ∧ (k, c) ∈ l := by
  induction l generalizing errs with
  | nil => simp at hmem
  | cons hd t ih =>
    rcases hd with ⟨ep, e⟩
    by_cases ht : k ∈ t.map Prod.fst
    · rcases @ih (dictInsert ep e errs) ht with ⟨c, hc1, hc2⟩
      exact ⟨c, hc1, List.mem_cons_of_mem _ hc2⟩
    · have hk : k = ep := by
        simp only [List.map_cons, List.mem_cons] at hmem
        rcases hmem with h | h
        · exact h
        · exact absurd h ht
      subst hk
      refine ⟨e, ?_, List.mem_cons.mpr (Or.inl rfl)⟩
      show (k, e) ∈ aggErrors t (dictInsert k e errs)
      exact aggErrors_keep (mem_dictInsert_self k e errs) ht

theorem aggErrors_src {l : List (Endpoint × String)} {errs : List (Endpoint × String)}
    {q : Endpoint × String} (hq : q ∈ aggErrors l errs) : q ∈ l ∨ q ∈ errs := by
  induction l generalizing errs with
  | nil => exact Or.inr (by simpa [aggErrors] using hq)
  | cons hd t ih =>
    rcases hd with ⟨ep, e⟩
    rcases @ih (dictInsert ep e errs) hq with h | h
    · exact Or.inl (List.mem_cons_of_mem _ h)
    · rcases mem_dictInsert_elim h with h1 | h1
      · exact Or.inl (by simp [h1])
      · exact Or.inr h1

theorem raceLoop_all_fail (l : List (Endpoint × String)) (errs : List (Endpoint × String)) :
    raceLoop (asFailures l) errs = Sum.inl (aggErrors l errs) := by
  induction l generalizing errs with
  | nil => simp [asFailures, raceLoop, aggErrors]
  | cons hd t ih =>
    rcases hd with ⟨ep, e⟩
    simp only [asFailures, List.map_cons, raceLoop, aggErrors]
    exact ih (dictInsert ep e errs)

theorem connect_pipe_some {R : Type} (st : ServiceState R)
    (c : List (Endpoint × Except String Unit)) (u : Unit) (h : st.pipe = some u) :
    connectModel st c = (st, [], Except.ok ()) := by
  simp [connectModel, h]

theorem connect_state_cases {R : Type} (st : ServiceState R)
    (c : List (Endpoint × Except String Unit)) :
    (connectModel st c).1 = st ∨
      ∃ ep, (connectModel st c).1 = { st with pipe := some (), address := some ep } := by
  rcases hp : st.pipe with _ | u
  · rcases hr : raceLoop c [] with errs | ep
    · exact Or.inl (by simp [connectModel, hp, hr])
    · exact Or.inr ⟨ep, by simp [connectModel, hp, hr]⟩
  · exact Or.inl (by simp [connectModel, hp])

theorem connect_sessions_eq {R : Type} (st : ServiceState R)
    (c : List (Endpoint × Except String Unit)) :
    (connectModel st c).1.sessions = st.sessions := by
  rcases connect_state_cases st c with h | ⟨ep, h⟩ <;> simp [h]

theorem connect_counter_eq {R : Type} (st : ServiceState R)
    (c : List (Endpoint × Except String Unit)) :
    (connectModel st c).1.counter = st.counter := by
  rcases connect_state_cases st c with h | ⟨ep, h⟩ <;> simp [h]

theorem connect_api_eq {R : Type} (st : ServiceState R)
    (c : List (Endpoint × Except String Unit)) :
    (connectModel st c).1.api = st.api := by
  rcases connect_state_cases st c with h | ⟨ep, h⟩ <;> simp [h]

theorem connect_ok_pipe {R : Type} (st : ServiceState R)
    (c : List (Endpoint × Except String Unit))
    (h : (connectModel st c).2.2 = Except.ok ()) :
    (connectModel st c).1.pipe.isSome = true := by
  rcases hp : st.pipe with _ | u
  · rcases hr : raceLoop c [] with errs | ep
    · simp [connectModel, hp, hr] at h
    · simp [connectModel, hp, hr]
  · simp [connectModel, hp]

theorem connect_pipe_mono {R : Type} (st : ServiceState R)
    (c : List (Endpoint × Except String Unit)) (h : st.pipe.isSome = true) :
    (connectModel st c).1.pipe.isSome = true := by
  rcases Option.isSome_iff_exists.mp h with ⟨u, hu⟩
  simp [connectModel, hu]

theorem connect_evs_no_write {R : Type} (st : ServiceState R)
    (c : List (Endpoint × Except String Unit)) :
    ∀ e ∈ (connectModel st c).2.1, isWriteEv e = false := by
  have hshape : (connectModel st c).2.1 = [] ∨
      (connectModel st c).2.1 = st.endpoints.map Ev.connectAttempt := by
    rcases hp : st.pipe with _ | u
    · rcases hr : raceLoop c [] with errs | ep
      · exact Or.inr (by simp [connectModel, hp, hr])
      · exact Or.inr (by simp [connectModel, hp, hr])
    · exact Or.inl (by simp [connectModel, hp])
  rcases hshape with h | h <;> rw [h]
  · intro e he; simp at he
  · intro e he
    rcases List.mem_map.mp he with ⟨ep, _, hep⟩
    rw [← hep]; rfl

theorem connect_pipe_none_evs {R : Type} (st : ServiceState R)
    (c : List (Endpoint × Except String Unit)) (h : st.pipe = none) :
    (connectModel st c).2.1 = st.endpoints.map Ev.connectAttempt := by
  rcases hr : raceLoop c [] with errs | ep <;> simp [connectModel, h, hr]

theorem deliveredTriples_append (l1 l2 : List Ev) :
    deliveredTriples (l1 ++ l2) = deliveredTriples l1 ++ deliveredTriples l2 := by
  induction l1 with
  | nil => rfl
  | cons e t ih => cases e <;> simp [deliveredTriples, ih]

theorem keys_updateVal {α β : Type} [DecidableEq α] (l : List (α × β)) (a : α) (v : β) :
    (updateVal l a v).map Prod.fst = l.map Prod.fst := by
  induction l with
  | nil => rfl
  | cons hd t ih =>
    rcases hd with ⟨k, w⟩
    by_cases hk : k = a <;> simp [updateVal, hk, ih]

theorem lookupK_not_mem {α β : Type} [DecidableEq α] {l : List (α × β)} {a : α}
    (h : a ∉ l.map Prod.fst) : lookupK l a = none := by
  induction l with
  | nil => rfl
  | cons hd t ih =>
    rcases hd with ⟨k, v⟩
    simp only [List.map_cons, List.mem_cons, not_or] at h
    have hk : ¬ k = a := fun hh => h.1 hh.symm
    simp only [lookupK, if_neg hk]
    exact ih h.2

theorem lookupK_eraseKey_self {α β : Type} [DecidableEq α] {l : List (α × β)} {a : α}
    (hnodup : (l.map Prod.fst).Nodup) : lookupK (eraseKey a l) a = none := by
  induction l with
  | nil => rfl
  | cons hd t ih =>
    rcases hd with ⟨k, v⟩
    simp only [List.map_cons, List.nodup_cons] at hnodup
    by_cases hk : k = a
    · simp only [eraseKey, if_pos hk]
      subst hk
      exact lookupK_not_mem hnodup.1
    · simp only [eraseKey, if_neg hk, lookupK, if_neg hk]
      exact ih hnodup.2

theorem lookupS_some_shape {R : Type} {tbl : List (Nat × R)} {a : Val} {sid : Nat} {r : R}
    (h : lookupS tbl a = some (sid, r)) :
    a = Val.vint (sid : Int) ∧ lookupK tbl sid = some r := by
  cases a with
  | vint i =>
    simp only [lookupS] at h
    split at h
    · exact absurd h (by simp)
    · rcases hlo : lookupK tbl i.toNat with _ | r0
      · rw [hlo] at h; exact absurd h (by simp)
      · rw [hlo] at h
        have h1 : i.toNat = sid ∧ r0 = r := by
          constructor <;> [exact congrArg Prod.fst (Option.some.inj h);
            exact congrArg Prod.snd (Option.some.inj h)]
        rcases h1 with ⟨h1, h2⟩
        have hnn : 0 ≤ i := le_of_not_lt (by assumption)
        constructor
        · rw [← h1, Int.toNat_of_nonneg hnn]
        · rw [← h1, hlo, h2]
  | vstr s => simp [lookupS] at h
  | vunit => simp [lookupS] at h

theorem routeFrame_malformed {R : Type} (I : RxI R) (st : ServiceState R) (f : List Val)
    (h : f.length < 3) : routeFrame I st f = (st, [Ev.skipMalformed]) := by
  match f with
  | [] => rfl
  | [a] => rfl
  | [a, b] => rfl
  | a :: b :: c :: t => simp at h; omega

theorem routeFrame_unknown {R : Type} (I : RxI R) (st : ServiceState R) (a mt p : Val)
    (tl : List Val) (h : lookupS st.sessions a = none) :
    routeFrame I st (a :: mt :: p :: tl) = (st, [Ev.skipUnknown]) := by
  simp [routeFrame, h]

theorem routeFrame_known_shape {R : Type} (I : RxI R) (st : ServiceState R) (a mt p : Val)
    (tl : List Val) (sid : Nat) (r : R) (h : lookupS st.sessions a = some (sid, r)) :
    a = Val.vint (sid : Int) ∧
    ((routeFrame I st (a :: mt :: p :: tl)).2 = [Ev.deliver sid mt p, Ev.remove sid] ∨
     (routeFrame I st (a :: mt :: p :: tl)).2 = [Ev.deliver sid mt p]) := by
  refine ⟨(lookupS_some_shape h).1, ?_⟩
  by_cases hc : I.closed (I.push r mt p) = true
  · exact Or.inl (by simp [routeFrame, h, hc])
  · exact Or.inr (by simp [routeFrame, h, hc])

theorem routeFrame_closed_state {R : Type} (I : RxI R) (st : ServiceState R) (a mt p : Val)
    (tl : List Val) (sid : Nat) (r : R) (hlk : lookupS st.sessions a = some (sid, r))
    (hcl : I.closed (I.push r mt p) = true) :
    (routeFrame I st (a :: mt :: p :: tl)).1 =
      { st with sessions := eraseKey sid (updateVal st.sessions sid (I.push r mt p)) } := by
  simp [routeFrame, hlk, hcl]

theorem errorOutsFor_map {R : Type} (svc : String) (l : List (Nat × R)) :
    errorOutsFor svc (l.map (fun q => Ev.errorOut q.1 svc)) = l.map Prod.fst := by
  induction l with
  | nil => rfl
  | cons hd t ih => simp [errorOutsFor, ih]

theorem connect_evs_shape {R : Type} (st : ServiceState R)
    (c : List (Endpoint × Except String Unit)) :
    (connectModel st c).2.1 = [] ∨
      (connectModel st c).2.1 = st.endpoints.map Ev.connectAttempt := by
  rcases hp : st.pipe with _ | u
  · rcases hr : raceLoop c [] with errs | ep
    · exact Or.inr (by simp [connectModel, hp, hr])
    · exact Or.inr (by simp [connectModel, hp, hr])
  · exact Or.inl (by simp [connectModel, hp])

theorem routeFrame_pipe_eq {R : Type} (I : RxI R) (st : ServiceState R) (f : List Val) :
    (routeFrame I st f).1.pipe = st.pipe := by
  rcases f with _ | ⟨a, _ | ⟨b, _ | ⟨c, t⟩⟩⟩
  · rfl
  · rfl
  · rfl
  · rcases hlk : lookupS st.sessions a with _ | ⟨sid, r⟩
    · simp [routeFrame, hlk]
    · by_cases hc : I.closed (I.push r b c) = true <;> simp [routeFrame, hlk, hc]

theorem routeFrame_counter_eq {R : Type} (I : RxI R) (st : ServiceState R) (f : List Val) :
    (routeFrame I st f).1.counter = st.counter := by
  rcases f with _ | ⟨a, _ | ⟨b, _ | ⟨c, t⟩⟩⟩
  · rfl
  · rfl
  · rfl
  · rcases hlk : lookupS st.sessions a with _ | ⟨sid, r⟩
    · simp [routeFrame, hlk]
    · by_cases hc : I.closed (I.push r b c) = true <;> simp [routeFrame, hlk, hc]

theorem onRead_pipe_eq {R : Type} (I : RxI R) (st : ServiceState R) (frames : List (List Val)) :
    (onRead I st frames).1.pipe = st.pipe := by
  induction frames generalizing st with
  | nil => rfl
  | cons f rest ih =>
    show (onRead I (routeFrame I st f).1 rest).1.pipe = st.pipe
    rw [ih, routeFrame_pipe_eq]

theorem onRead_counter_eq {R : Type} (I : RxI R) (st : ServiceState R)
    (frames : List (List Val)) : (onRead I st frames).1.counter = st.counter := by
  induction frames generalizing st with
  | nil => rfl
  | cons f rest ih =>
    show (onRead I (routeFrame I st f).1 rest).1.counter = st.counter
    rw [ih, routeFrame_counter_eq]

theorem routeFrame_sessions_nil {R : Type} (I : RxI R) (st : ServiceState R) (f : List Val)
    (h : st.sessions = []) : (routeFrame I st f).1 = st := by
  rcases f with _ | ⟨a, _ | ⟨b, _ | ⟨c, t⟩⟩⟩
  · rfl
  · rfl
  · rfl
  · have hlk : lookupS st.sessions a = none := by
      rw [h]; cases a <;> simp [lookupS, lookupK]
    simp [routeFrame, hlk]

theorem onRead_sessions_nil {R : Type} (I : RxI R) (st : ServiceState R)
    (frames : List (List Val)) (h : st.sessions = []) :
    (onRead I st frames).1.sessions = [] := by
  induction frames generalizing st with
  | nil => exact h
  | cons f rest ih =>
    show (onRead I (routeFrame I st f).1 rest).1.sessions = []
    exact ih _ (by rw [routeFrame_sessions_nil I st f h, h])

theorem allocIds_append (l1 l2 : List Ev) :
    allocIds (l1 ++ l2) = allocIds l1 ++ allocIds l2 := by
  induction l1 with
  | nil => rfl
  | cons e t ih => cases e <;> simp [allocIds, ih]

theorem allocIds_map_connectAttempt (eps : List Endpoint) :
    allocIds (eps.map Ev.connectAttempt) = [] := by
  induction eps with
  | nil => rfl
  | cons e t ih => simp [allocIds, ih]

theorem allocIds_map_errorOut {R : Type} (svc : String) (l : List (Nat × R)) :
    allocIds (l.map (fun q => Ev.errorOut q.1 svc)) = [] := by
  induction l with
  | nil => rfl
  | cons hd t ih => simp [allocIds, ih]

theorem allocIds_connect {R : Type} (st : ServiceState R)
    (c : List (Endpoint × Except String Unit)) : allocIds (connectModel st c).2.1 = [] := by
  rcases connect_evs_shape st c with h | h <;> rw [h]
  · rfl
  · exact allocIds_map_connectAttempt st.endpoints

theorem allocIds_routeFrame {R : Type} (I : RxI R) (st : ServiceState R) (f : List Val) :
    allocIds (routeFrame I st f).2 = [] := by
  rcases f with _ | ⟨a, _ | ⟨b, _ | ⟨c, t⟩⟩⟩
  · rfl
  · rfl
  · rfl
  · rcases hlk : lookupS st.sessions a with _ | ⟨sid, r⟩
    · simp [routeFrame, hlk, allocIds]
    · by_cases hc : I.closed (I.push r b c) = true <;>
        simp [routeFrame, hlk, hc, allocIds]

theorem allocIds_onRead {R : Type} (I : RxI R) (st : ServiceState R)
    (frames : List (List Val)) : allocIds (onRead I st frames).2 = [] := by
  induction frames generalizing st with
  | nil => rfl
  | cons f rest ih =>
    show allocIds ((routeFrame I st f).2 ++ (onRead I (routeFrame I st f).1 rest).2) = []
    rw [allocIds_append, allocIds_routeFrame, ih]
    rfl

theorem disconnect_counter_eq {R : Type} (st : ServiceState R) :
    (disconnectModel st).1.counter = st.counter := by
  rcases hp : st.pipe with _ | u <;> simp [disconnectModel, hp]

theorem allocIds_disconnect {R : Type} (st : ServiceState R) :
    allocIds (disconnectModel st).2 = [] := by
  rcases hp : st.pipe with _ | u
  · simp [disconnectModel, hp, allocIds]
  · simp only [disconnectModel, hp, allocIds]
    exact allocIds_map_errorOut st.name st.sessions.reverse

theorem runOp_alloc {R : Type} (I : RxI R) (mkRx : Val → R) (op : Op) (st : ServiceState R) :
    ((runOp I mkRx st op).1.counter = st.counter ∧ allocIds (runOp I mkRx st op).2 = []) ∨
    ((runOp I mkRx st op).1.counter = st.counter + 1 ∧
      allocIds (runOp I mkRx st op).2 = [st.counter]) := by
  cases op with
  | connectOp c => exact Or.inl ⟨connect_counter_eq st c, allocIds_connect st c⟩
  | disconnectOp => exact Or.inl ⟨disconnect_counter_eq st, allocIds_disconnect st⟩
  | onCloseOp => exact Or.inl ⟨disconnect_counter_eq st, allocIds_disconnect st⟩
  | onReadOp frames => exact Or.inl ⟨onRead_counter_eq I st frames, allocIds_onRead I st frames⟩
  | invokeOp c m a =>
    have hcount := connect_counter_eq st c
    have hevs1 := allocIds_connect st c
    rcases hc : connectModel st c with ⟨st1, evs1, res⟩
    rw [hc] at hcount hevs1
    simp only at hcount hevs1
    cases res with
    | error e =>
      exact Or.inl (by simp only [runOp, invokeModel, hc]; exact ⟨hcount, hevs1⟩)
    | ok u =>
      rcases hf : findMethod st1.api m with _ | ⟨⟨mid, txT, rxT⟩⟩
      · exact Or.inl (by simp only [runOp, invokeModel, hc, hf]; exact ⟨hcount, hevs1⟩)
      · right
        constructor
        · simp only [runOp, invokeModel, hc, hf]
          omega
        · simp only [runOp, invokeModel, hc, hf]
          rw [allocIds_append, hevs1, hcount]
          rfl

theorem run_alloc {R : Type} (I : RxI R) (mkRx : Val → R) (ops : List Op) :
    ∀ (st : ServiceState R),
      allocIds (run I mkRx st ops).2 =
        consecFrom st.counter (allocIds (run I mkRx st ops).2).length ∧
      (run I mkRx st ops).1.counter = st.counter + (allocIds (run I mkRx st ops).2).length := by
  induction ops with
  | nil => intro st; exact ⟨rfl, rfl⟩
  | cons op ops ih =>
    intro st
    have hsplit2 : (run I mkRx st (op :: ops)).2 =
        (runOp I mkRx st op).2 ++ (run I mkRx (runOp I mkRx st op).1 ops).2 := rfl
    have hsplit1 : (run I mkRx st (op :: ops)).1 =
        (run I mkRx (runOp I mkRx st op).1 ops).1 := rfl
    rcases ih (runOp I mkRx st op).1 with ⟨ih1, ih2⟩
    rcases runOp_alloc I mkRx op st with ⟨hc, he⟩ | ⟨hc, he⟩
    · rw [hsplit1, hsplit2, allocIds_append, he, List.nil_append]
      rw [hc] at ih1 ih2
      exact ⟨ih1, ih2⟩
    · rw [hsplit1, hsplit2, allocIds_append, he]
      rw [hc] at ih1 ih2
      constructor
      · show st.counter :: allocIds (run I mkRx (runOp I mkRx st op).1 ops).2 =
          st.counter :: consecFrom (st.counter + 1)
            (allocIds (run I mkRx (runOp I mkRx st op).1 ops).2).length
        rw [← ih1]
      · show (run I mkRx (runOp I mkRx st op).1 ops).1.counter =
          st.counter + ((allocIds (run I mkRx (runOp I mkRx st op).1 ops).2).length + 1)
        omega

theorem mem_consecFrom {x c k : Nat} (h : x ∈ consecFrom c k) : c ≤ x := by
  induction k generalizing c with
  | zero => simp [consecFrom] at h
  | succ k ih =>
    rcases List.mem_cons.mp h with h1 | h1
    · omega
    · have := ih h1
      omega

theorem consecFrom_pairwise (c k : Nat) :
    List.Pairwise (fun x y => x < y) (consecFrom c k) := by
  induction k generalizing c with
  | zero => simp [consecFrom]
  | succ k ih =>
    refine List.Pairwise.cons ?_ (ih (c + 1))
    intro y hy
    have := mem_consecFrom hy
    omega

/-! ### Claim theorems -/

/-- C9: on a connected service whose api names method 1 echo and whose next
session id is 1, calling echo with argument the string x writes exactly the
invocation frame (1, 1, [x]), registers the freshly built receive side under
session id 1, bumps the counter, and returns the paired receive/send handle
bound to session 1. -/
theorem echo_scenario :
    invokeModel mkRxM stEcho [] "echo" [Val.vstr "x"] =
      ({ stEcho with counter := 2, sessions := [(1, mkRxM (Val.vstr "shapeB"))] },
       [Ev.write 1 1 [Val.vstr "x"], Ev.register 1, Ev.expose 1],
       Except.ok (Chan.mk (mkRxM (Val.vstr "shapeB")) (TxM.mk 1))) := rfl

/-- C1, counterexample: in the dispatch trace of a known method the first
write event is at position 0 and the first registration event at position 1,
so the session is registered strictly after the invocation frame write, not
before or atomically with it as claimed. -/
theorem write_precedes_register_cex :
    registerNotAfterWrite ((invokeModel mkRxM stEcho [] "echo" [Val.vstr "x"]).2.1) = false ∧
    ((invokeModel mkRxM stEcho [] "echo" [Val.vstr "x"]).2.1).findIdx? isWriteEv = some 0 ∧
    ((invokeModel mkRxM stEcho [] "echo" [Val.vstr "x"]).2.1).findIdx? isRegisterEv = some 1 :=
  ⟨rfl, rfl, rfl⟩

/-- C2, counterexample: invoking the unknown method nosuch on a disconnected
service triggers connection activity (the dispatch runs connect first, here
with a successful attempt to the single endpoint) even though the invocation
then fails with the AttributeError naming nosuch. -/
theorem unknown_method_connects_cex :
    (invokeModel mkRxM (initSt RxM "svc" [("h", 1)] []) [(("h", 1), Except.ok ())]
        "nosuch" []).2.1 = [Ev.connectAttempt ("h", 1)] ∧
    (invokeModel mkRxM (initSt RxM "svc" [("h", 1)] []) [(("h", 1), Except.ok ())]
        "nosuch" []).2.2 = Except.error (InvokeErr.attributeErr "nosuch") :=
  ⟨rfl, rfl⟩

/-- C5, counterexample: with the endpoint (a, 1) listed twice and both
attempts failing, with causes e1 and then e2, the aggregate error holds the
single pair ((a, 1), e2): the cause e1 of the first failed attempt is named
nowhere in the aggregate, so the error does not name every endpoint together
with its cause. -/
theorem connect_aggregate_cex :
    (connectModel (initSt RxM "svc" [("a", 1), ("a", 1)] [])
        [(("a", 1), Except.error "e1"), (("a", 1), Except.error "e2")]).2.2 =
      Except.error [(("a", 1), "e2")] ∧
    ((("a", 1), "e1") : Endpoint × String) ∉ ([(("a", 1), "e2")] : List (Endpoint × String)) :=
  ⟨rfl, by decide⟩

/-- C5 (amended): for every endpoint list in which every connection attempt
fails, connect() fails with the single aggregate error dict and leaves the
state (in particular the null pipe) untouched; the aggregate names every
endpoint of the list together with a cause of one of that endpoint's failed
attempts, and holds nothing but attempt pairs — but when an endpoint appears
more than once only one of its causes is kept, so not every (endpoint,
cause) pair is named. -/
theorem connect_all_fail_aggregate {R : Type} (st : ServiceState R)
    (attempts : List (Endpoint × String))
    (hpipe : st.pipe = none)
    (hperm : List.Perm (attempts.map Prod.fst) st.endpoints) :
    (connectModel st (asFailures attempts)).2.2 = Except.error (aggErrors attempts []) ∧
    (connectModel st (asFailures attempts)).1 = st ∧
    (∀ ep ∈ st.endpoints, ∃ c, (ep, c) ∈ aggErrors attempts [] ∧ (ep, c) ∈ attempts) ∧
    (∀ q ∈ aggErrors attempts [], q ∈ attempts) := by
  have hrl := raceLoop_all_fail attempts []
  refine ⟨by simp [connectModel, hpipe, hrl], by simp [connectModel, hpipe, hrl], ?_, ?_⟩
  · intro ep hep
    exact aggErrors_cover (hperm.mem_iff.mpr hep)
  · intro q hq
    rcases aggErrors_src hq with h | h
    · exact h
    · simp at h

/-- C5, witness: the amended theorem applied to a service with endpoints
(b, 2) and (a, 1) whose two attempts fail with causes e1 and e2. -/
theorem connect_all_fail_aggregate_witness :
    (connectModel (initSt RxM "svc" [("b", 2), ("a", 1)] [])
        (asFailures [(("a", 1), "e1"), (("b", 2), "e2")])).2.2 =
      Except.error (aggErrors [(("a", 1), "e1"), (("b", 2), "e2")] []) ∧
    (connectModel (initSt RxM "svc" [("b", 2), ("a", 1)] [])
        (asFailures [(("a", 1), "e1"), (("b", 2), "e2")])).1 =
      initSt RxM "svc" [("b", 2), ("a", 1)] [] := by
  have h := connect_all_fail_aggregate (initSt RxM "svc" [("b", 2), ("a", 1)] [])
    [(("a", 1), "e1"), (("b", 2), "e2")] rfl (by decide)
  exact ⟨h.1, h.2.1⟩

/-- C1 (amended): in a dispatch of a known method on a connected service,
the event order is exactly frame write, then session registration, then
exposure of the channel: the write happens before the session handle is
exposed to the caller, and the receive side is registered in the session
table after the write (not before or atomically with it) and before the
exposure. -/
theorem invoke_event_order {R : Type} (mkRx : Val → R) (st : ServiceState R)
    (completions : List (Endpoint × Except String Unit)) (mname : String) (args : List Val)
    (mid : Nat) (txT rxT : Val)
    (hpipe : st.pipe.isSome = true)
    (hfind : findMethod st.api mname = some (mid, txT, rxT)) :
    invokeModel mkRx st completions mname args =
      ({ st with counter := st.counter + 1,
                 sessions := dictInsert st.counter (mkRx rxT) st.sessions },
       [Ev.write st.counter mid args, Ev.register st.counter, Ev.expose st.counter],
       Except.ok (Chan.mk (mkRx rxT) (TxM.mk st.counter))) := by
  rcases Option.isSome_iff_exists.mp hpipe with ⟨u, hu⟩
  simp [invokeModel, connectModel, hu, hfind]

/-- C1, witness: the amended theorem applied to the concrete echo service. -/
theorem invoke_event_order_witness :
    invokeModel mkRxM stEcho [] "echo" [Val.vstr "x"] =
      ({ stEcho with counter := stEcho.counter + 1,
                     sessions := dictInsert stEcho.counter (mkRxM (Val.vstr "shapeB")) stEcho.sessions },
       [Ev.write stEcho.counter 1 [Val.vstr "x"], Ev.register stEcho.counter,
        Ev.expose stEcho.counter],
       Except.ok (Chan.mk (mkRxM (Val.vstr "shapeB")) (TxM.mk stEcho.counter))) :=
  invoke_event_order mkRxM stEcho [] "echo" [Val.vstr "x"] 1 (Val.vstr "shapeA")
    (Val.vstr "shapeB") rfl rfl

/-- Characterization of `_invoke` on a method name absent from the api: the
connect step runs first and its state and events are the whole effect; the
result is the propagated connection failure, or the AttributeError naming
the method when the connect step succeeds. -/
theorem invoke_unknown_eq {R : Type} (mkRx : Val → R) (st : ServiceState R)
    (completions : List (Endpoint × Except String Unit)) (mname : String) (args : List Val)
    (hunk : findMethod st.api mname = none) :
    invokeModel mkRx st completions mname args =
      ((connectModel st completions).1, (connectModel st completions).2.1,
        match (connectModel st completions).2.2 with
        | Except.error e => Except.error (InvokeErr.connErr e)
        | Except.ok _ => Except.error (InvokeErr.attributeErr mname)) := by
  have hapi := connect_api_eq st completions
  rcases h : connectModel st completions with ⟨st1, evs1, res⟩
  rw [h] at hapi
  cases res with
  | error e => simp [invokeModel, h]
  | ok u =>
    simp only at hapi
    simp [invokeModel, h, hapi, hunk]

/-- C2 (amended): invoking a method name absent from the api mapping on an
already-connected service fails immediately with the AttributeError naming
the method, with no state change and no events at all; in general no frame
is ever written by such a call and the AttributeError is the outcome
whenever the connect step succeeds — but the dispatch runs connect() first,
so on a disconnected service the call does trigger connection activity (one
attempt per endpoint). -/
theorem unknown_method_local_failure {R : Type} (mkRx : Val → R) (st : ServiceState R)
    (completions : List (Endpoint × Except String Unit)) (mname : String) (args : List Val)
    (hunk : findMethod st.api mname = none) :
    (st.pipe.isSome = true →
      invokeModel mkRx st completions mname args =
        (st, [], Except.error (InvokeErr.attributeErr mname))) ∧
    ((connectModel st completions).2.2 = Except.ok () →
      (invokeModel mkRx st completions mname args).2.2 =
        Except.error (InvokeErr.attributeErr mname)) ∧
    (∀ e ∈ (invokeModel mkRx st completions mname args).2.1, isWriteEv e = false) ∧
    (st.pipe = none →
      (invokeModel mkRx st completions mname args).2.1 = st.endpoints.map Ev.connectAttempt) := by
  have heq := invoke_unknown_eq mkRx st completions mname args hunk
  refine ⟨?_, ?_, ?_, ?_⟩
  · intro hpipe
    rcases Option.isSome_iff_exists.mp hpipe with ⟨u, hu⟩
    have hc := connect_pipe_some st completions u hu
    rw [heq, hc]
  · intro hok
    rw [heq]
    simp [hok]
  · intro e he
    rw [heq] at he
    exact connect_evs_no_write st completions e he
  · intro hnone
    rw [heq]
    exact connect_pipe_none_evs st completions hnone

/-- C2, witness: the amended theorem applied to a connected service with an
empty api and to the disconnected service of the counterexample. -/
theorem unknown_method_local_failure_witness :
    invokeModel mkRxM { initSt RxM "svc" [("h", 1)] [] with pipe := some () } [] "nosuch" [] =
      ({ initSt RxM "svc" [("h", 1)] [] with pipe := some () }, [],
        Except.error (InvokeErr.attributeErr "nosuch")) ∧
    (invokeModel mkRxM (initSt RxM "svc" [("h", 1)] []) [(("h", 1), Except.ok ())]
        "nosuch" []).2.1 = [Ev.connectAttempt ("h", 1)] := by
  have h1 := unknown_method_local_failure mkRxM
    { initSt RxM "svc" [("h", 1)] [] with pipe := some () } [] "nosuch" [] rfl
  have h2 := unknown_method_local_failure mkRxM
    (initSt RxM "svc" [("h", 1)] []) [(("h", 1), Except.ok ())] "nosuch" [] rfl
  exact ⟨h1.1 rfl, h2.2.2.2 rfl⟩

/-- C4: calling disconnect() with a live connection closes the transport,
nulls the live-connection reference, leaves the session table empty, and
delivers exactly one disconnection failure carrying the service name to each
of the open sessions (the drained ids are exactly the table keys, popped in
reverse insertion order); calling disconnect() with no live connection is a
no-op that changes no state and performs no events. -/
theorem disconnect_contract {R : Type} (st : ServiceState R)
    (hnodup : (st.sessions.map Prod.fst).Nodup) :
    (st.pipe = none → disconnectModel st = (st, [])) ∧
    (st.pipe.isSome = true →
      (disconnectModel st).1.pipe = none ∧
      (disconnectModel st).1.sessions = [] ∧
      Ev.pipeClose ∈ (disconnectModel st).2 ∧
      errorOutsFor st.name (disconnectModel st).2 = (st.sessions.map Prod.fst).reverse ∧
      ∀ sid ∈ st.sessions.map Prod.fst,
        (errorOutsFor st.name (disconnectModel st).2).count sid = 1) := by
  constructor
  · intro h
    simp [disconnectModel, h]
  · intro hpipe
    rcases Option.isSome_iff_exists.mp hpipe with ⟨u, hu⟩
    have htrace : errorOutsFor st.name (disconnectModel st).2 =
        (st.sessions.map Prod.fst).reverse := by
      simp only [disconnectModel, hu, errorOutsFor]
      rw [← List.map_reverse, errorOutsFor_map, List.map_reverse]
    refine ⟨by simp [disconnectModel, hu], by simp [disconnectModel, hu],
      by simp [disconnectModel, hu], htrace, ?_⟩
    intro sid hsid
    rw [htrace]
    exact List.count_eq_one_of_mem (List.nodup_reverse.mpr hnodup)
      (List.mem_reverse.mpr hsid)

/-- C4, witness: the contract applied to a connected service with two open
sessions 1 and 2; both receive exactly one disconnection failure carrying
the service name and the table is left empty. -/
theorem disconnect_contract_witness :
    ({ stEcho with sessions := [(1, mkRxM Val.vunit), (2, mkRxM Val.vunit)] } :
        ServiceState RxM).pipe.isSome = true ∧
    (disconnectModel { stEcho with
        sessions := [(1, mkRxM Val.vunit), (2, mkRxM Val.vunit)] }).1.sessions = [] ∧
    (errorOutsFor "svc" (disconnectModel { stEcho with
        sessions := [(1, mkRxM Val.vunit), (2, mkRxM Val.vunit)] }).2).count 1 = 1 ∧
    (errorOutsFor "svc" (disconnectModel { stEcho with
        sessions := [(1, mkRxM Val.vunit), (2, mkRxM Val.vunit)] }).2).count 2 = 1 := by
  have h := disconnect_contract
    { stEcho with sessions := [(1, mkRxM Val.vunit), (2, mkRxM Val.vunit)] } (by decide)
  have h2 := h.2 rfl
  exact ⟨rfl, h2.2.1, h2.2.2.2.2 1 (by decide), h2.2.2.2.2 2 (by decide)⟩

/-- C3: for every decoded inbound frame sequence, a malformed frame (fewer
than three fields) is skipped, leaving the state untouched and the routing
of the remaining frames unchanged; a well-formed frame whose session id is
not in the session table is skipped the same way; a frame whose session id
is found in the table is delivered to that session's receive side; and the
delivered (session, message_type, payload) triples are always an in-order
subsequence of the decoded frames' first-three-field triples, so known
frames are delivered in decoded order and skips never disturb later
routing. -/
theorem on_read_routing {R : Type} (I : RxI R) :
    (∀ (st : ServiceState R) (f : List Val) (rest : List (List Val)), f.length < 3 →
      onRead I st (f :: rest) =
        ((onRead I st rest).1, Ev.skipMalformed :: (onRead I st rest).2)) ∧
    (∀ (st : ServiceState R) (a mt p : Val) (tl : List Val) (rest : List (List Val)),
      lookupS st.sessions a = none →
      onRead I st ((a :: mt :: p :: tl) :: rest) =
        ((onRead I st rest).1, Ev.skipUnknown :: (onRead I st rest).2)) ∧
    (∀ (st : ServiceState R) (a mt p : Val) (tl : List Val) (rest : List (List Val))
      (sid : Nat) (r : R), lookupS st.sessions a = some (sid, r) →
      ((onRead I st ((a :: mt :: p :: tl) :: rest)).2).head? = some (Ev.deliver sid mt p)) ∧
    (∀ (st : ServiceState R) (frames : List (List Val)),
      List.Sublist (deliveredTriples (onRead I st frames).2) (frames.filterMap frameTriple)) := by
  refine ⟨?_, ?_, ?_, ?_⟩
  · intro st f rest h
    have hr := routeFrame_malformed I st f h
    show ((onRead I (routeFrame I st f).1 rest).1,
        (routeFrame I st f).2 ++ (onRead I (routeFrame I st f).1 rest).2) = _
    rw [hr]
    simp
  · intro st a mt p tl rest h
    have hr := routeFrame_unknown I st a mt p tl h
    show ((onRead I (routeFrame I st (a :: mt :: p :: tl)).1 rest).1,
        (routeFrame I st (a :: mt :: p :: tl)).2 ++
          (onRead I (routeFrame I st (a :: mt :: p :: tl)).1 rest).2) = _
    rw [hr]
    simp
  · intro st a mt p tl rest sid r h
    have hshape := (routeFrame_known_shape I st a mt p tl sid r h).2
    show ((routeFrame I st (a :: mt :: p :: tl)).2 ++
        (onRead I (routeFrame I st (a :: mt :: p :: tl)).1 rest).2).head? = _
    rcases hshape with h2 | h2 <;> rw [h2] <;> rfl
  · intro st frames
    induction frames generalizing st with
    | nil => simp [onRead, deliveredTriples]
    | cons f rest ih =>
      have hsplit : (onRead I st (f :: rest)).2 =
          (routeFrame I st f).2 ++ (onRead I (routeFrame I st f).1 rest).2 := rfl
      rw [hsplit, deliveredTriples_append]
      rcases f with _ | ⟨a, _ | ⟨b, _ | ⟨c, t⟩⟩⟩
      · rw [routeFrame_malformed I st [] (by simp)]
        simpa [deliveredTriples, frameTriple] using ih st
      · rw [routeFrame_malformed I st [a] (by simp)]
        simpa [deliveredTriples, frameTriple] using ih st
      · rw [routeFrame_malformed I st [a, b] (by simp)]
        simpa [deliveredTriples, frameTriple] using ih st
      · rcases hlk : lookupS st.sessions a with _ | ⟨sid, r⟩
        · rw [routeFrame_unknown I st a b c t hlk]
          simp only [deliveredTriples, List.nil_append, List.filterMap_cons, frameTriple]
          exact (ih st).cons _
        · obtain ⟨ha, hshape⟩ := routeFrame_known_shape I st a b c t sid r hlk
          subst ha
          simp only [List.filterMap_cons, frameTriple]
          rcases hshape with h2 | h2 <;> rw [h2] <;>
            · simp only [deliveredTriples, List.cons_append, List.nil_append]
              exact (ih ((routeFrame I st (Val.vint (sid : Int) :: b :: c :: t)).1)).cons₂ _

/-- C3, witness: the routing theorem applied to a concrete three-frame
chunk on a table holding session 7: the malformed frame and the frame for
the unknown session 9 are skipped without disturbing the frame for session
7, which is delivered at the head of its trace, and the delivered triples
are a subsequence of the decoded triples. -/
theorem on_read_routing_witness :
    onRead rxiM { stEcho with sessions := [(7, mkRxM Val.vunit)] }
        [[Val.vint 5]] =
      ((onRead rxiM { stEcho with sessions := [(7, mkRxM Val.vunit)] } []).1,
        Ev.skipMalformed ::
          (onRead rxiM { stEcho with sessions := [(7, mkRxM Val.vunit)] } []).2) ∧
    onRead rxiM { stEcho with sessions := [(7, mkRxM Val.vunit)] }
        [[Val.vint 9, Val.vint 0, Val.vstr "msg"]] =
      ((onRead rxiM { stEcho with sessions := [(7, mkRxM Val.vunit)] } []).1,
        Ev.skipUnknown ::
          (onRead rxiM { stEcho with sessions := [(7, mkRxM Val.vunit)] } []).2) ∧
    ((onRead rxiM { stEcho with sessions := [(7, mkRxM Val.vunit)] }
        [[Val.vint 7, Val.vint 0, Val.vstr "msg"]]).2).head? =
      some (Ev.deliver 7 (Val.vint 0) (Val.vstr "msg")) ∧
    List.Sublist
      (deliveredTriples (onRead rxiM { stEcho with sessions := [(7, mkRxM Val.vunit)] }
        [[Val.vint 5], [Val.vint 9, Val.vint 0, Val.vstr "msg"],
         [Val.vint 7, Val.vint 0, Val.vstr "msg"]]).2)
      ([[Val.vint 5], [Val.vint 9, Val.vint 0, Val.vstr "msg"],
        [Val.vint 7, Val.vint 0, Val.vstr "msg"]].filterMap frameTriple) := by
  have h := @on_read_routing RxM rxiM
  exact ⟨h.1 { stEcho with sessions := [(7, mkRxM Val.vunit)] } [Val.vint 5] [] (by decide),
    h.2.1 { stEcho with sessions := [(7, mkRxM Val.vunit)] } (Val.vint 9) (Val.vint 0)
      (Val.vstr "msg") [] [] (by decide),
    h.2.2.1 { stEcho with sessions := [(7, mkRxM Val.vunit)] } (Val.vint 7) (Val.vint 0)
      (Val.vstr "msg") [] [] 7 (mkRxM Val.vunit) (by decide),
    h.2.2.2 { stEcho with sessions := [(7, mkRxM Val.vunit)] }
      [[Val.vint 5], [Val.vint 9, Val.vint 0, Val.vstr "msg"],
       [Val.vint 7, Val.vint 0, Val.vstr "msg"]]⟩

/-- C8: when a delivered frame makes a session's receive side report itself
closed after the push, the session is removed from the table (its id no
longer resolves), and a subsequent frame carrying the same session id is
treated as an unknown session and skipped, leaving the remaining routing
unchanged. -/
theorem closed_session_removed {R : Type} (I : RxI R) (st : ServiceState R)
    (a mt p mt2 p2 : Val) (tl2 : List Val) (rest : List (List Val)) (sid : Nat) (r : R)
    (hnodup : (st.sessions.map Prod.fst).Nodup)
    (hlk : lookupS st.sessions a = some (sid, r))
    (hcl : I.closed (I.push r mt p) = true) :
    lookupK (onRead I st [[a, mt, p]]).1.sessions sid = none ∧
    onRead I st ([a, mt, p] :: (a :: mt2 :: p2 :: tl2) :: rest) =
      ((onRead I (routeFrame I st [a, mt, p]).1 rest).1,
        Ev.deliver sid mt p :: Ev.remove sid :: Ev.skipUnknown ::
          (onRead I (routeFrame I st [a, mt, p]).1 rest).2) := by
  have hstate := routeFrame_closed_state I st a mt p [] sid r hlk hcl
  have ha := (lookupS_some_shape hlk).1
  have hgone : lookupK (routeFrame I st [a, mt, p]).1.sessions sid = none := by
    rw [hstate]
    exact lookupK_eraseKey_self (by rw [keys_updateVal]; exact hnodup)
  have hlk2 : lookupS (routeFrame I st [a, mt, p]).1.sessions a = none := by
    have hgone2 := hgone
    rw [ha] at hgone2 ⊢
    simp only [lookupS, Int.toNat_natCast]
    rw [hgone2]
    simp
  constructor
  · exact hgone
  · have htr : (routeFrame I st [a, mt, p]).2 = [Ev.deliver sid mt p, Ev.remove sid] := by
      simp [routeFrame, hlk, hcl]
    show ((onRead I (routeFrame I (routeFrame I st [a, mt, p]).1
        (a :: mt2 :: p2 :: tl2)).1 rest).1,
      (routeFrame I st [a, mt, p]).2 ++
        ((routeFrame I (routeFrame I st [a, mt, p]).1 (a :: mt2 :: p2 :: tl2)).2 ++
          (onRead I (routeFrame I (routeFrame I st [a, mt, p]).1
            (a :: mt2 :: p2 :: tl2)).1 rest).2)) = _
    rw [routeFrame_unknown I _ a mt2 p2 tl2 hlk2, htr]
    simp

/-- C8, witness: on a table holding session 7 with a receive side that
closes after one push, the frame (7, 0, msg) removes session 7, and the
immediately following frame (7, 1, msg2) is skipped as unknown. -/
theorem closed_session_removed_witness :
    lookupK (onRead rxiM { stEcho with sessions := [(7, mkRxMClose 1 Val.vunit)] }
        [[Val.vint 7, Val.vint 0, Val.vstr "msg"]]).1.sessions 7 = none ∧
    onRead rxiM { stEcho with sessions := [(7, mkRxMClose 1 Val.vunit)] }
        ([Val.vint 7, Val.vint 0, Val.vstr "msg"] ::
          (Val.vint 7 :: Val.vint 1 :: Val.vstr "msg2" :: []) :: []) =
      ((onRead rxiM (routeFrame rxiM { stEcho with
          sessions := [(7, mkRxMClose 1 Val.vunit)] }
            [Val.vint 7, Val.vint 0, Val.vstr "msg"]).1 []).1,
        Ev.deliver 7 (Val.vint 0) (Val.vstr "msg") :: Ev.remove 7 :: Ev.skipUnknown ::
          (onRead rxiM (routeFrame rxiM { stEcho with
            sessions := [(7, mkRxMClose 1 Val.vunit)] }
              [Val.vint 7, Val.vint 0, Val.vstr "msg"]).1 []).2) :=
  closed_session_removed rxiM { stEcho with sessions := [(7, mkRxMClose 1 Val.vunit)] }
    (Val.vint 7) (Val.vint 0) (Val.vstr "msg") (Val.vint 1) (Val.vstr "msg2") [] [] 7
    (mkRxMClose 1 Val.vunit) (by decide) (by decide) (by decide)

theorem invoke_ok_sid {R : Type} (mkRx : Val → R) (st : ServiceState R)
    (c : List (Endpoint × Except String Unit)) (m : String) (a : List Val) (ch : Chan R)
    (h : (invokeModel mkRx st c m a).2.2 = Except.ok ch) : ch.tx.sid = st.counter := by
  have hcount := connect_counter_eq st c
  rcases hc : connectModel st c with ⟨st1, evs1, res⟩
  rw [hc] at hcount
  simp only at hcount
  cases res with
  | error e =>
    simp only [invokeModel, hc] at h
    exact absurd h (by simp)
  | ok u =>
    rcases hf : findMethod st1.api m with _ | ⟨⟨mid, txT, rxT⟩⟩
    · simp only [invokeModel, hc, hf] at h
      exact absurd h (by simp)
    · simp only [invokeModel, hc, hf] at h
      have hch : Chan.mk (mkRx rxT) (TxM.mk st1.counter) = ch := Except.ok.inj h
      rw [← hch]
      exact hcount

/-- C6 (amended): every whole operation run without interleaving — connect,
disconnect, on_close, on_read and an atomic dispatch — preserves the
invariant that the session table is non-empty only while the
live-connection reference is non-null (disconnect re-establishes it by
draining the table).  The invariant is nevertheless not true of every
reachable state, because a dispatch is not atomic: see the reachable
counterexample. -/
theorem atomic_ops_preserve_conn_inv {R : Type} (I : RxI R) (mkRx : Val → R) (op : Op)
    (st : ServiceState R) (h : connInv st) : connInv (runOp I mkRx st op).1 := by
  cases op with
  | connectOp c =>
    intro hne
    rw [show (runOp I mkRx st (Op.connectOp c)).1 = (connectModel st c).1 from rfl] at hne ⊢
    rw [connect_sessions_eq] at hne
    exact connect_pipe_mono st c (h hne)
  | disconnectOp =>
    intro hne
    rw [show (runOp I mkRx st Op.disconnectOp).1 = (disconnectModel st).1 from rfl] at hne ⊢
    rcases hp : st.pipe with _ | u
    · have hd : disconnectModel st = (st, []) := by simp [disconnectModel, hp]
      rw [hd] at hne ⊢
      exact h hne
    · simp [disconnectModel, hp] at hne
  | onCloseOp =>
    intro hne
    rw [show (runOp I mkRx st Op.onCloseOp).1 = (disconnectModel st).1 from rfl] at hne ⊢
    rcases hp : st.pipe with _ | u
    · have hd : disconnectModel st = (st, []) := by simp [disconnectModel, hp]
      rw [hd] at hne ⊢
      exact h hne
    · simp [disconnectModel, hp] at hne
  | onReadOp frames =>
    intro hne
    rw [show (runOp I mkRx st (Op.onReadOp frames)).1 = (onRead I st frames).1 from rfl] at hne ⊢
    have hne' : st.sessions ≠ [] := by
      intro hs
      exact hne (onRead_sessions_nil I st frames hs)
    rw [onRead_pipe_eq]
    exact h hne'
  | invokeOp c m a =>
    have hconnsess := connect_sessions_eq st c
    rcases hc : connectModel st c with ⟨st1, evs1, res⟩
    rw [hc] at hconnsess
    simp only at hconnsess
    have hinv1 : connInv st1 := by
      intro hne1
      have hne0 : st.sessions ≠ [] := by rw [← hconnsess]; exact hne1
      have hp := connect_pipe_mono st c (h hne0)
      rw [hc] at hp
      exact hp
    cases res with
    | error e =>
      have hred : (runOp I mkRx st (Op.invokeOp c m a)).1 = st1 := by
        simp only [runOp, invokeModel, hc]
      rw [hred]
      exact hinv1
    | ok u =>
      rcases hf : findMethod st1.api m with _ | ⟨⟨mid, txT, rxT⟩⟩
      · have hred : (runOp I mkRx st (Op.invokeOp c m a)).1 = st1 := by
          simp only [runOp, invokeModel, hc, hf]
        rw [hred]
        exact hinv1
      · have hok : (connectModel st c).2.2 = Except.ok () := by rw [hc]
        have hp := connect_ok_pipe st c hok
        rw [hc] at hp
        simp only at hp
        have hred : (runOp I mkRx st (Op.invokeOp c m a)).1 =
            { st1 with
                counter := st1.counter + 1,
                sessions := dictInsert st1.counter (mkRx rxT) st1.sessions } := by
          simp only [runOp, invokeModel, hc, hf]
        rw [hred]
        intro _
        simpa using hp

/-- C6, witness: the preservation theorem applied to an atomic echo dispatch
on the connected empty-table service, whose invariant holds trivially. -/
theorem atomic_ops_preserve_conn_inv_witness :
    connInv (runOp rxiM mkRxM stEcho (Op.invokeOp [] "echo" [Val.vstr "x"])).1 :=
  atomic_ops_preserve_conn_inv rxiM mkRxM (Op.invokeOp [] "echo" [Val.vstr "x"]) stEcho
    (fun hne => absurd rfl hne)

/-- C7: over every sequence of whole operations run from the initial state,
the session ids allocated by dispatches are exactly the consecutive ids 1,
2, ..., n in order — so allocation starts at 1, every allocated id is
greater than all previously allocated ids, no id is ever reused (including
across disconnects and reconnects, which never touch the counter), and the
counter always reads 1 plus the number of allocations. -/
theorem session_ids_monotone {R : Type} (I : RxI R) (mkRx : Val → R) (nm : String)
    (eps : List Endpoint) (api : List (Nat × String × Val × Val)) (ops : List Op) :
    allocIds (run I mkRx (initSt R nm eps api) ops).2 =
      consecFrom 1 (allocIds (run I mkRx (initSt R nm eps api) ops).2).length ∧
    List.Pairwise (fun x y => x < y) (allocIds (run I mkRx (initSt R nm eps api) ops).2) ∧
    (run I mkRx (initSt R nm eps api) ops).1.counter =
      1 + (allocIds (run I mkRx (initSt R nm eps api) ops).2).length := by
  have h := run_alloc I mkRx ops (initSt R nm eps api)
  refine ⟨h.1, ?_, h.2⟩
  rw [h.1]
  exact consecFrom_pairwise 1 _

/-- C10: an invocation whose method name is absent from the api mapping
fails, and leaves the session table and the session-id counter exactly as
they were; consequently the next successful invocation from the resulting
state is allocated precisely the id the failed call would otherwise have
consumed. -/
theorem unknown_method_no_frame_effect {R : Type} (mkRx : Val → R) (st : ServiceState R)
    (completions : List (Endpoint × Except String Unit)) (mname : String) (args : List Val)
    (hunk : findMethod st.api mname = none) :
    isErr (invokeModel mkRx st completions mname args).2.2 = true ∧
    (invokeModel mkRx st completions mname args).1.sessions = st.sessions ∧
    (invokeModel mkRx st completions mname args).1.counter = st.counter ∧
    (∀ (c2 : List (Endpoint × Except String Unit)) (m2 : String) (a2 : List Val)
      (ch : Chan R),
      (invokeModel mkRx (invokeModel mkRx st completions mname args).1 c2 m2 a2).2.2 =
        Except.ok ch → ch.tx.sid = st.counter) := by
  have heq := invoke_unknown_eq mkRx st completions mname args hunk
  refine ⟨?_, ?_, ?_, ?_⟩
  · rw [heq]
    cases h2 : (connectModel st completions).2.2 with
    | error e => simp [h2, isErr]
    | ok u => simp [h2, isErr]
  · rw [heq]
    exact connect_sessions_eq st completions
  · rw [heq]
    exact connect_counter_eq st completions
  · intro c2 m2 a2 ch hok
    have hsid := invoke_ok_sid mkRx (invokeModel mkRx st completions mname args).1 c2 m2 a2 ch hok
    rw [hsid, heq]
    exact connect_counter_eq st completions

/-- C10, witness: on the connected echo service a call to nosuch fails and
leaves the table and counter unchanged, and the following echo call is
allocated session id 1, the id the failed call would have consumed. -/
theorem unknown_method_no_frame_effect_witness :
    isErr (invokeModel mkRxM stEcho [] "nosuch" []).2.2 = true ∧
    (invokeModel mkRxM stEcho [] "nosuch" []).1.sessions = stEcho.sessions ∧
    (invokeModel mkRxM stEcho [] "nosuch" []).1.counter = stEcho.counter ∧
    (Chan.mk (mkRxM (Val.vstr "shapeB")) (TxM.mk 1)).tx.sid = stEcho.counter := by
  have h := unknown_method_no_frame_effect mkRxM stEcho [] "nosuch" [] rfl
  exact ⟨h.1, h.2.1, h.2.2.1, h.2.2.2 [] "echo" [Val.vstr "x"]
    (Chan.mk (mkRxM (Val.vstr "shapeB")) (TxM.mk 1)) rfl⟩

/-- C6, counterexample: a dispatch of a known method suspended at its frame
write, interleaved with a disconnect, registers its session after the table
was drained; the reached state has a non-empty session table while the
live-connection reference is null, so the claimed invariant does not hold at
every reachable state. -/
theorem conn_inv_reachable_cex :
    (msteps rxiM mkRxM { base := stEcho, pending := none }
        [Act.start "echo" [Val.vstr "x"], Act.disc, Act.resume]).map
      (fun ms => decide (ms.base.sessions ≠ [] ∧ ms.base.pipe = none)) = some true := rfl

end Cocaine
